import Mathlib

/-!
Shallow embedding of the jetstream message exchange (`jetstream.py`) and its
non-blocking stream (`iostream.py`), with theorems checking the natural
language specification against the code.

Conventions of the embedding:
* Clients are identified by natural numbers.
* A subscription key (qid) is either a literal string or a compiled pattern;
  patterns are identified by a numeric id, and an oracle `μ : Nat → String →
  Bool` gives the behaviour of each compiled pattern's `match` method
  (truthiness of `t.match(qid)` in the source).
* Python `dict`s whose key iteration order matters (the `_subscribers` table,
  iterated by `Exchange.dispatch`) are association lists; dicts that are only
  looked up pointwise (`_clients`, `_mq`) are functions to `Option`.
* An operation that raises in Python (KeyError, ValueError, IndexError,
  assertion failure, IOError) is modelled by `Option`/`none`.
-/

/-- A subscription key: `Exchange.subscribe` accepts either a string or a
compiled-regex-like object exposing `match`; pattern objects compare by
identity, modelled by a numeric id. -/
inductive Key where
  | lit (s : String)
  | pat (id : Nat)
deriving DecidableEq, Repr

/-- The matching test of `Exchange.dispatch` for one subscription key `t`
against the target `qid`:
`(type(t) == types.StringType and t == qid) or (hasattr(t, 'match') and t.match(qid))`.
`μ` is the oracle giving each compiled pattern's `match` truthiness. -/
def keyMatches (μ : Nat → String → Bool) (t : Key) (qid : String) : Bool :=
  match t with
  | .lit s => s = qid
  | .pat i => μ i qid

/-- The `_subscribers` table: `qid -> client set` (a Python dict iterated in
entry order by `dispatch`). -/
abbrev SubTable := List (Key × Finset Nat)

/-- Lookup in `_subscribers` (a `defaultdict(set)`): the set stored under the
first entry for `k`, or the empty set. -/
def subsOf : SubTable → Key → Finset Nat
  | [], _ => ∅
  | e :: rest, k => if e.1 = k then e.2 else subsOf rest k

/-- `self._subscribers[qid]` update: apply `f` to the set stored under the
(unique) entry for `k`, materialising the entry with the empty set first when
it is absent, as `defaultdict(set)` does. -/
def updSub : SubTable → Key → (Finset Nat → Finset Nat) → SubTable
  | [], k, f => [(k, f ∅)]
  | e :: rest, k, f => if e.1 = k then (k, f e.2) :: rest else e :: updSub rest k f

/-- The matching loop of `Exchange.dispatch`: iterate the `_subscribers` keys
and union the subscriber sets of every key that matches the target. The
result is `clients` after the `for t in self._subscribers` loop. -/
def dispatchSet (μ : Nat → String → Bool) : SubTable → String → Finset Nat
  | [], _ => ∅
  | e :: rest, qid =>
      (if keyMatches μ e.1 qid then e.2 else ∅) ∪ dispatchSet μ rest qid

/-- The iteration order of a Python set is arbitrary; we enumerate the
computed client set in ascending order. -/
def setToList (s : Finset Nat) : List Nat := s.sort (· ≤ ·)

/-- The multicast branch of `Exchange.dispatch`:
`[c.on_message(qid, message) for c in clients]`, one `on_message` invocation
per element of the computed set. -/
def multicastDeliveries (μ : Nat → String → Bool) (tbl : SubTable)
    (qid message : String) : List (Nat × String × String) :=
  (setToList (dispatchSet μ tbl qid)).map (fun c => (c, qid, message))

/-- Number of `on_message` invocations client `c` receives in a delivery
list. -/
def onMessageCount (c : Nat) (ds : List (Nat × String × String)) : Nat :=
  (ds.filter (fun d => d.1 = c)).length

theorem mem_dispatchSet (μ : Nat → String → Bool) (tbl : SubTable)
    (qid : String) (c : Nat) :
    c ∈ dispatchSet μ tbl qid ↔
      ∃ k cs, (k, cs) ∈ tbl ∧ c ∈ cs ∧ keyMatches μ k qid = true := by
  induction tbl with
  | nil => simp [dispatchSet]
  | cons e rest ih =>
    simp only [dispatchSet, Finset.mem_union, ih]
    constructor
    · rintro (h | ⟨k, cs, hmem, hc, hk⟩)
      · by_cases hm : keyMatches μ e.1 qid
        · refine ⟨e.1, e.2, ?_, ?_, hm⟩
          · simp
          · simpa [hm] using h
        · simp [hm] at h
      · exact ⟨k, cs, List.mem_cons_of_mem _ hmem, hc, hk⟩
    · rintro ⟨k, cs, hmem, hc, hk⟩
      rcases List.mem_cons.mp hmem with heq | hmem'
      · left
        rw [← heq]
        simp [hk, hc]
      · exact Or.inr ⟨k, cs, hmem', hc, hk⟩

theorem onMessageCount_multicast (μ : Nat → String → Bool) (tbl : SubTable)
    (qid message : String) (c : Nat) :
    onMessageCount c (multicastDeliveries μ tbl qid message) =
      if c ∈ dispatchSet μ tbl qid then 1 else 0 := by
  unfold onMessageCount multicastDeliveries
  rw [← List.countP_eq_length_filter, List.countP_map]
  have hcount : List.countP ((fun d => decide (d.1 = c)) ∘ fun c' => (c', qid, message))
      (setToList (dispatchSet μ tbl qid)) = (setToList (dispatchSet μ tbl qid)).count c := by
    rw [List.count]
    apply List.countP_congr
    intro a _
    simp [Function.comp]
  rw [hcount]
  by_cases h : c ∈ dispatchSet μ tbl qid
  · rw [if_pos h]
    exact List.count_eq_one_of_mem (Finset.sort_nodup _ _)
      ((Finset.mem_sort _).mpr h)
  · rw [if_neg h]
    exact List.count_eq_zero_of_not_mem (fun hc => h ((Finset.mem_sort _).mp hc))

/-- C1: for every subscription table and literal target qid, the recipient
set computed by `Exchange.dispatch` equals the set of clients subscribed
under some key that is a literal equal to the target or a pattern matching
it; and on multicast each such client's `on_message` is invoked exactly once
(zero times for any other client). -/
theorem C1_dispatch_set_correct (μ : Nat → String → Bool) (tbl : SubTable)
    (qid message : String) (c : Nat) :
    (c ∈ dispatchSet μ tbl qid ↔
      ∃ k cs, (k, cs) ∈ tbl ∧ c ∈ cs ∧ keyMatches μ k qid = true) ∧
    onMessageCount c (multicastDeliveries μ tbl qid message) =
      (if c ∈ dispatchSet μ tbl qid then 1 else 0) :=
  ⟨mem_dispatchSet μ tbl qid c, onMessageCount_multicast μ tbl qid message c⟩

/-! ## Exchange state and operations (`Exchange` in `jetstream.py`) -/

/-- The mutable state of an `Exchange`: `_clients` (client → qid list, a dict
looked up pointwise) and `_subscribers` (qid → client set, a dict iterated by
`dispatch`). -/
structure ExState where
  clients : Nat → Option (List Key)
  subscribers : SubTable

/-- A fresh exchange: `self._clients = {}`, `self._subscribers = defaultdict(set)`. -/
def ExState.init : ExState := { clients := fun _ => none, subscribers := [] }

/-- The qid list of a client, `[]` when the client is not connected. -/
def clientListOf (s : ExState) (c : Nat) : List Key := (s.clients c).getD []

/-- Pointwise update of the `_clients` dict. -/
def updFun (f : Nat → Option (List Key)) (c : Nat) (v : Option (List Key)) :
    Nat → Option (List Key) :=
  fun c' => if c' = c then v else f c'

/-- `Exchange.connect`: `self._clients[client] = []` (overwrites any existing
entry). -/
def exConnect (c : Nat) (s : ExState) : ExState :=
  { s with clients := updFun s.clients c (some []) }

/-- `Exchange.subscribe`: assert the client is connected, add it to
`self._subscribers[qid]` and append the qid to its list. `none` models the
assertion failure. -/
def exSubscribe (k : Key) (c : Nat) (s : ExState) : Option ExState :=
  match s.clients c with
  | none => none
  | some l =>
      some { clients := updFun s.clients c (some (l ++ [k])),
             subscribers := updSub s.subscribers k (insert c) }

/-- `Exchange.unsubscribe`: assert the client is connected;
`self._subscribers[qid].remove(client)` raises `KeyError` when the client is
not in the set; `self._clients[client].remove(qid)` removes the first
occurrence and raises `ValueError` when absent. -/
def exUnsubscribe (k : Key) (c : Nat) (s : ExState) : Option ExState :=
  match s.clients c with
  | none => none
  | some l =>
      if c ∈ subsOf s.subscribers k then
        if k ∈ l then
          some { clients := updFun s.clients c (some (l.erase k)),
                 subscribers := updSub s.subscribers k (fun cs => cs.erase c) }
        else none
      else none

/-- The `for qid in self._clients[client]: self.unsubscribe(qid, client)`
loop of `Exchange.disconnect`. Python's `for` walks the list by an internal
index while `unsubscribe` mutates that same list, so the loop reads index
`i` of the current (shrinking) list each iteration. `fuel` only bounds the
recursion; the initial list length is always enough fuel because every
successful iteration shortens the list. -/
def disconnectLoop (c : Nat) : Nat → Nat → ExState → Option ExState
  | _, 0, s => some s
  | i, fuel + 1, s =>
      match s.clients c with
      | none => none
      | some l =>
          match l.get? i with
          | none => some s
          | some k =>
              match exUnsubscribe k c s with
              | none => none
              | some s' => disconnectLoop c (i + 1) fuel s'

/-- `Exchange.disconnect`: when the client is present, unsubscribe each qid of
its (mutating) list, then `del self._clients[client]`. -/
def exDisconnect (c : Nat) (s : ExState) : Option ExState :=
  match s.clients c with
  | none => some s
  | some l =>
      (disconnectLoop c 0 l.length s).map
        (fun s' => { s' with clients := updFun s'.clients c none })

/-- `random.choice(seq)`: the chosen index is `r % len(seq)` for an oracle
draw `r`; on an empty sequence `choice` raises `IndexError` (`none`). -/
def randomChoice (r : Nat) (l : List Nat) : Option Nat := l.get? (r % l.length)

/-- `Exchange.dispatch`: compute the matching client set; on multicast invoke
every client's `on_message`, on unicast invoke `random.choice`'s pick. The
returned list holds the `on_message` invocations `(client, qid, message)`;
`none` models an uncaught exception (the `IndexError` of `random.choice([])`).
The subscription table is not touched. -/
def exDispatch (μ : Nat → String → Bool) (r : Nat) (s : ExState)
    (qid message : String) (multicast : Bool) : Option (List (Nat × String × String)) :=
  if multicast then
    some (multicastDeliveries μ s.subscribers qid message)
  else
    match randomChoice r (setToList (dispatchSet μ s.subscribers qid)) with
    | none => none
    | some c => some [(c, qid, message)]

/-- The table-mutating operations of the exchange, for running sequences. -/
inductive ExOp where
  | connect (c : Nat)
  | disconnect (c : Nat)
  | subscribe (k : Key) (c : Nat)
  | unsubscribe (k : Key) (c : Nat)

/-- One operation applied to the exchange state. -/
def exStep (o : ExOp) (s : ExState) : Option ExState :=
  match o with
  | .connect c => some (exConnect c s)
  | .disconnect c => exDisconnect c s
  | .subscribe k c => exSubscribe k c s
  | .unsubscribe k c => exUnsubscribe k c s

/-- Run a sequence of operations; `none` as soon as one raises. -/
def exRun (s : ExState) : List ExOp → Option ExState
  | [] => some s
  | o :: os =>
      match exStep o s with
      | none => none
      | some s' => exRun s' os

/-- The two mappings agree on pair membership: `(k, c)` is in the by-qid map
iff it is in the by-client map. -/
def exAgrees (s : ExState) : Prop :=
  ∀ k c, c ∈ subsOf s.subscribers k ↔ k ∈ clientListOf s c


theorem subsOf_updSub (t : SubTable) (k k' : Key) (f : Finset Nat → Finset Nat) :
    subsOf (updSub t k f) k' = if k' = k then f (subsOf t k) else subsOf t k' := by
  induction t with
  | nil =>
    by_cases h : k' = k
    · subst h; simp [updSub, subsOf]
    · have h' : ¬ k = k' := fun e => h e.symm
      simp [updSub, subsOf, h, h']
  | cons e rest ih =>
    by_cases he : e.1 = k
    · by_cases h : k' = k
      · subst h; simp [updSub, subsOf, he]
      · have h' : ¬ k = k' := fun e => h e.symm
        have he' : ¬ e.1 = k' := by rw [he]; exact h'
        simp [updSub, subsOf, he, h, h', he']
    · by_cases h : k' = k
      · subst h
        simp [updSub, subsOf, he, ih]
      · simp only [updSub, if_neg he, subsOf, ih]
        by_cases h2 : e.1 = k'
        · simp [h2, h]
        · simp [h2, h]

theorem clientListOf_mk (f : Nat → Option (List Key)) (t : SubTable) (c : Nat) :
    clientListOf ⟨f, t⟩ c = (f c).getD [] := rfl

theorem updFun_apply (f : Nat → Option (List Key)) (c : Nat)
    (v : Option (List Key)) (c' : Nat) :
    updFun f c v c' = if c' = c then v else f c' := rfl

/-- The strengthened invariant: the maps agree and every client's qid list is
duplicate-free. -/
def exInv (s : ExState) : Prop :=
  exAgrees s ∧ ∀ c, (clientListOf s c).Nodup

theorem exInv_connect (s : ExState) (c : Nat) (hpre : s.clients c = none)
    (hinv : exInv s) : exInv (exConnect c s) := by
  obtain ⟨hag, hnd⟩ := hinv
  have h0 : clientListOf s c = [] := by simp [clientListOf, hpre]
  have hsub : (exConnect c s).subscribers = s.subscribers := rfl
  have hlist : ∀ c', clientListOf (exConnect c s) c' =
      if c' = c then [] else clientListOf s c' := by
    intro c'
    by_cases h : c' = c <;> simp [clientListOf, exConnect, updFun, h]
  constructor
  · intro k c'
    rw [hsub, hlist]
    by_cases hc : c' = c
    · rw [if_pos hc]
      subst hc
      constructor
      · intro hmem
        have := (hag k c').mp hmem
        rw [h0] at this
        exact absurd this (List.not_mem_nil _)
      · intro hmem
        exact absurd hmem (List.not_mem_nil _)
    · rw [if_neg hc]
      exact hag k c'
  · intro c'
    rw [hlist]
    by_cases hc : c' = c
    · rw [if_pos hc]; exact List.nodup_nil
    · rw [if_neg hc]; exact hnd c'

theorem exInv_subscribe (s s' : ExState) (k : Key) (c : Nat)
    (hpre : k ∉ clientListOf s c) (hinv : exInv s)
    (hstep : exSubscribe k c s = some s') : exInv s' := by
  obtain ⟨hag, hnd⟩ := hinv
  unfold exSubscribe at hstep
  cases hcl : s.clients c with
  | none => rw [hcl] at hstep; exact absurd hstep (by simp)
  | some l =>
    rw [hcl] at hstep
    injection hstep with hstep
    subst hstep
    have hlol : clientListOf s c = l := by simp [clientListOf, hcl]
    have hsub : ∀ k', subsOf (updSub s.subscribers k (insert c)) k' =
        if k' = k then insert c (subsOf s.subscribers k) else subsOf s.subscribers k' :=
      fun k' => subsOf_updSub _ _ _ _
    have hlist : ∀ c', clientListOf ⟨updFun s.clients c (some (l ++ [k])),
        updSub s.subscribers k (insert c)⟩ c' =
        if c' = c then l ++ [k] else clientListOf s c' := by
      intro c'
      by_cases h : c' = c <;> simp [clientListOf, updFun, h]
    constructor
    · intro k' c'
      rw [show (⟨updFun s.clients c (some (l ++ [k])),
          updSub s.subscribers k (insert c)⟩ : ExState).subscribers =
          updSub s.subscribers k (insert c) from rfl, hsub, hlist]
      by_cases hc : c' = c
      · subst hc
        by_cases hk : k' = k
        · subst hk
          simp [Finset.mem_insert]
        · rw [if_neg hk, if_pos rfl, List.mem_append]
          constructor
          · intro h
            exact Or.inl (hlol ▸ (hag k' c').mp h)
          · rintro (h | h)
            · exact (hag k' c').mpr (hlol ▸ h)
            · exact absurd (List.mem_singleton.mp h) hk
      · by_cases hk : k' = k
        · subst hk
          rw [if_pos rfl, if_neg hc, Finset.mem_insert]
          constructor
          · rintro (h | h)
            · exact absurd h hc
            · exact (hag k' c').mp h
          · intro h
            exact Or.inr ((hag k' c').mpr h)
        · rw [if_neg hk, if_neg hc]
          exact hag k' c'
    · intro c'
      rw [hlist]
      by_cases h : c' = c
      · rw [if_pos h]
        refine List.Nodup.append (hlol ▸ hnd c) (List.nodup_singleton k) ?_
        intro a ha hb
        rw [List.mem_singleton] at hb
        subst hb
        exact hpre (hlol ▸ ha)
      · rw [if_neg h]
        exact hnd c'

theorem exInv_unsubscribe (s s' : ExState) (k : Key) (c : Nat) (hinv : exInv s)
    (hstep : exUnsubscribe k c s = some s') : exInv s' := by
  obtain ⟨hag, hnd⟩ := hinv
  cases hcl : s.clients c with
  | none =>
    rw [exUnsubscribe.eq_def, hcl] at hstep
    exact absurd hstep (by simp)
  | some l =>
    rw [exUnsubscribe.eq_def, hcl] at hstep
    simp only at hstep
    by_cases hcs : c ∈ subsOf s.subscribers k
    · rw [if_pos hcs] at hstep
      by_cases hkl : k ∈ l
      · rw [if_pos hkl] at hstep
        injection hstep with hstep
        subst hstep
        have hlol : clientListOf s c = l := by simp [clientListOf, hcl]
        have hlnd : l.Nodup := hlol ▸ hnd c
        have hsub : ∀ k', subsOf (updSub s.subscribers k (fun cs => cs.erase c)) k' =
            if k' = k then (subsOf s.subscribers k).erase c else subsOf s.subscribers k' :=
          fun k' => subsOf_updSub _ _ _ _
        have hlist : ∀ c', clientListOf ⟨updFun s.clients c (some (l.erase k)),
            updSub s.subscribers k (fun cs => cs.erase c)⟩ c' =
            if c' = c then l.erase k else clientListOf s c' := by
          intro c'
          by_cases h : c' = c <;> simp [clientListOf, updFun, h]
        constructor
        · intro k' c'
          rw [show (⟨updFun s.clients c (some (l.erase k)),
              updSub s.subscribers k (fun cs => cs.erase c)⟩ : ExState).subscribers =
              updSub s.subscribers k (fun cs => cs.erase c) from rfl, hsub, hlist]
          by_cases hc : c' = c
          · subst hc
            by_cases hk : k' = k
            · subst hk
              rw [if_pos rfl, if_pos rfl]
              constructor
              · intro h
                exact absurd h (Finset.not_mem_erase _ _)
              · intro h
                exact absurd ((hlnd.mem_erase_iff).mp h).1 (fun hne => hne rfl)
            · rw [if_neg hk, if_pos rfl, hlnd.mem_erase_iff]
              constructor
              · intro h
                exact ⟨hk, hlol ▸ (hag k' c').mp h⟩
              · intro h
                exact (hag k' c').mpr (hlol ▸ h.2)
          · by_cases hk : k' = k
            · subst hk
              rw [if_pos rfl, if_neg hc, Finset.mem_erase]
              constructor
              · intro h
                exact (hag k' c').mp h.2
              · intro h
                exact ⟨hc, (hag k' c').mpr h⟩
            · rw [if_neg hk, if_neg hc]
              exact hag k' c'
        · intro c'
          rw [hlist]
          by_cases h : c' = c
          · rw [if_pos h]
            exact hlnd.erase k
          · rw [if_neg h]
            exact hnd c'
      · rw [if_neg hkl] at hstep
        exact absurd hstep (by simp)
    · rw [if_neg hcs] at hstep
      exact absurd hstep (by simp)

theorem exInv_delClient (s : ExState) (c : Nat) (h0 : clientListOf s c = [])
    (hinv : exInv s) : exInv ⟨updFun s.clients c none, s.subscribers⟩ := by
  obtain ⟨hag, hnd⟩ := hinv
  have hlist : ∀ c', clientListOf ⟨updFun s.clients c none, s.subscribers⟩ c' =
      if c' = c then [] else clientListOf s c' := by
    intro c'
    by_cases h : c' = c <;> simp [clientListOf, updFun, h]
  constructor
  · intro k c'
    rw [show (⟨updFun s.clients c none, s.subscribers⟩ : ExState).subscribers =
        s.subscribers from rfl, hlist]
    by_cases hc : c' = c
    · subst hc
      rw [if_pos rfl]
      constructor
      · intro h
        have := (hag k c').mp h
        rw [h0] at this
        exact absurd this (List.not_mem_nil _)
      · intro h
        exact absurd h (List.not_mem_nil _)
    · rw [if_neg hc]
      exact hag k c'
  · intro c'
    rw [hlist]
    by_cases h : c' = c
    · rw [if_pos h]; exact List.nodup_nil
    · rw [if_neg h]; exact hnd c'

theorem exInv_disconnect (s s' : ExState) (c : Nat)
    (hpre : ∀ l, s.clients c = some l → l.length ≤ 1) (hinv : exInv s)
    (hstep : exDisconnect c s = some s') : exInv s' := by
  unfold exDisconnect at hstep
  cases hcl : s.clients c with
  | none =>
    rw [hcl] at hstep
    injection hstep with hstep
    subst hstep
    exact hinv
  | some l =>
    rw [hcl] at hstep
    match l, hpre l hcl with
    | [], _ =>
      simp only [List.length_nil, disconnectLoop, Option.map_some] at hstep
      injection hstep with hstep
      subst hstep
      exact exInv_delClient s c (by simp [clientListOf, hcl]) hinv
    | [k], _ =>
      have hck : c ∈ subsOf s.subscribers k :=
        (hinv.1 k c).mpr (by simp [clientListOf, hcl])
      have hun : exUnsubscribe k c s =
          some ⟨updFun s.clients c (some ([k].erase k)),
            updSub s.subscribers k (fun cs => cs.erase c)⟩ := by
        rw [exUnsubscribe.eq_def, hcl]
        simp only
        rw [if_pos hck, if_pos (List.mem_singleton.mpr rfl)]
      have hloop : disconnectLoop c 0 [k].length s =
          some ⟨updFun s.clients c (some ([k].erase k)),
            updSub s.subscribers k (fun cs => cs.erase c)⟩ := by
        rw [show disconnectLoop c 0 [k].length s =
            (match s.clients c with
            | none => none
            | some l =>
                match l.get? 0 with
                | none => some s
                | some k =>
                    match exUnsubscribe k c s with
                    | none => none
                    | some s1 => disconnectLoop c 1 0 s1) from rfl]
        rw [hcl]
        simp only [List.get?_cons_zero, hun, disconnectLoop]
      simp only [hloop, Option.map_some] at hstep
      injection hstep with hstep
      subst hstep
      refine exInv_delClient _ c ?_ (exInv_unsubscribe s _ k c hinv hun)
      simp [clientListOf, updFun]

/-- Precondition restricting an operation, as forced by the counterexamples:
no duplicate live subscription, no reconnect of a connected client, no
disconnect of a client holding two or more subscriptions. -/
def exPre (o : ExOp) (s : ExState) : Prop :=
  match o with
  | .connect c => s.clients c = none
  | .subscribe k c => k ∉ clientListOf s c
  | .unsubscribe _ _ => True
  | .disconnect c => ∀ l, s.clients c = some l → l.length ≤ 1

/-- A sequence of operations all of whose preconditions hold along the run. -/
def exOkSeq : ExState → List ExOp → Prop
  | _, [] => True
  | s, o :: os => exPre o s ∧ ∀ s', exStep o s = some s' → exOkSeq s' os

theorem exInv_step (o : ExOp) (s s' : ExState) (hinv : exInv s)
    (hpre : exPre o s) (hstep : exStep o s = some s') : exInv s' := by
  cases o with
  | connect c =>
    injection hstep with hstep
    subst hstep
    exact exInv_connect s c hpre hinv
  | disconnect c => exact exInv_disconnect s s' c hpre hinv hstep
  | subscribe k c => exact exInv_subscribe s s' k c hpre hinv hstep
  | unsubscribe k c => exact exInv_unsubscribe s s' k c hinv hstep

theorem exInv_run (ops : List ExOp) : ∀ (s s' : ExState), exInv s →
    exOkSeq s ops → exRun s ops = some s' → exInv s' := by
  induction ops with
  | nil =>
    intro s s' hinv _ hrun
    injection hrun with hrun
    subst hrun
    exact hinv
  | cons o os ih =>
    intro s s' hinv hok hrun
    rw [exRun] at hrun
    cases hstep : exStep o s with
    | none => rw [hstep] at hrun; exact absurd hrun (by simp)
    | some s1 =>
      rw [hstep] at hrun
      exact ih s1 s' (exInv_step o s s1 hinv hok.1 hstep) (hok.2 s1 hstep) hrun

theorem exInv_init : exInv ExState.init := by
  constructor
  · intro k c
    simp [ExState.init, subsOf, clientListOf]
  · intro c
    simp [ExState.init, clientListOf]

/-- The operation sequence on which the claimed invariant fails: a duplicate
subscribe for the same (qid, client) pair followed by one unsubscribe. -/
def c2CexOps : List ExOp :=
  [.connect 0, .subscribe (.lit "q") 0, .subscribe (.lit "q") 0,
   .unsubscribe (.lit "q") 0]

/-- C2 counterexample: after `connect 0; subscribe "q" 0; subscribe "q" 0;
unsubscribe "q" 0` (a sequence with a duplicate subscribe, which the claim
explicitly includes), the run succeeds, the by-client map still holds the
pair `("q", 0)` (one occurrence of the duplicate remains), but the by-qid map
no longer holds it: `_subscribers["q"]` is a set, so the duplicate subscribe
added nothing and the single `remove` emptied it. The two maps disagree. -/
theorem C2_counterexample : ∃ s, exRun ExState.init c2CexOps = some s ∧
    Key.lit "q" ∈ clientListOf s 0 ∧ 0 ∉ subsOf s.subscribers (Key.lit "q") :=
  ⟨_, rfl, by decide, by decide⟩

/-- C2 amended: after every sequence of connect, subscribe, unsubscribe and
disconnect operations in which no subscribe duplicates a live (qid, client)
subscription, no connect re-connects an already connected client, and every
disconnected client holds at most one subscription at disconnect time, the
by-qid and by-client maps agree: a (qid, client) pair is present in one iff
it is present in the other. -/
theorem C2_consistency_amended (ops : List ExOp) (s : ExState)
    (hok : exOkSeq ExState.init ops) (hrun : exRun ExState.init ops = some s) :
    exAgrees s :=
  (exInv_run ops ExState.init s exInv_init hok hrun).1

/-- Witness for `C2_consistency_amended`: a concrete four-operation run. -/
theorem C2_consistency_amended_witness :
    ∃ s, exRun ExState.init
      [.connect 0, .subscribe (.lit "q") 0, .unsubscribe (.lit "q") 0,
        .disconnect 0] = some s ∧ exAgrees s := by
  refine ⟨_, rfl, ?_⟩
  apply C2_consistency_amended
    [.connect 0, .subscribe (.lit "q") 0, .unsubscribe (.lit "q") 0, .disconnect 0]
  · refine ⟨rfl, fun s1 h1 => ?_⟩
    injection h1 with h1
    subst h1
    refine ⟨fun hmem => absurd hmem (by decide), fun s2 h2 => ?_⟩
    injection h2 with h2
    subst h2
    refine ⟨trivial, fun s3 h3 => ?_⟩
    injection h3 with h3
    subst h3
    refine ⟨?_, fun s4 h4 => trivial⟩
    intro l hl
    injection hl with hl
    subst hl
    decide
  · rfl

/-- The operation sequence showing the disconnect teardown bug: a client with
two subscriptions disconnects. -/
def c3BugOps : List ExOp :=
  [.connect 0, .subscribe (.lit "a") 0, .subscribe (.lit "b") 0, .disconnect 0]

/-- C3: `Exchange.disconnect` iterates `self._clients[client]` while
`unsubscribe` removes elements from that same list, so with two
subscriptions `["a", "b"]` the loop unsubscribes `"a"`, the list shrinks to
`["b"]`, the iteration index moves past its end, and `"b"` is never
unsubscribed: after the run client 0 is gone from the by-client map while
`_subscribers["b"]` still contains it, contradicting the claim that no qid's
subscriber set still contains the client. -/
theorem C3_disconnect_leaves_subscription :
    ∃ s, exRun ExState.init c3BugOps = some s ∧
      s.clients 0 = none ∧ 0 ∈ subsOf s.subscribers (Key.lit "b") :=
  ⟨_, rfl, by decide, by decide⟩

/-- C4 counterexample: a unicast dispatch on an exchange with no matching
subscriber does not return normally with no deliveries: `random.choice([c
for c in clients])` raises `IndexError` on the empty list (`none`), so the
message is not silently dropped. -/
theorem C4_counterexample :
    exDispatch (fun _ _ => false) 0 ExState.init "q" "m" false = none := by
  simp [exDispatch, randomChoice, setToList, dispatchSet, ExState.init]

/-- C4 amended: for every unicast dispatch whose matching subscriber set is
empty, `Exchange.dispatch` raises (the `IndexError` of `random.choice` on an
empty sequence) and invokes no `on_message`; the subscription table is not
touched (`dispatch` never modifies it, by construction). -/
theorem C4_unicast_empty_raises (μ : Nat → String → Bool) (r : Nat)
    (s : ExState) (qid message : String)
    (h : dispatchSet μ s.subscribers qid = ∅) :
    exDispatch μ r s qid message false = none := by
  simp [exDispatch, randomChoice, setToList, h]

/-- Witness for `C4_unicast_empty_raises` at a concrete empty exchange. -/
theorem C4_unicast_empty_raises_witness :
    dispatchSet (fun _ _ => false) ExState.init.subscribers "q" = ∅ ∧
      exDispatch (fun _ _ => false) 3 ExState.init "q" "m" false = none :=
  ⟨rfl, C4_unicast_empty_raises (fun _ _ => false) 3 ExState.init "q" "m" rfl⟩

/-! ## Server connection egress scheduler (`Connection` in `jetstream.py`)

`Connection.on_message` enqueues into `self._mq[qid]` (a `defaultdict(deque)`)
and into the fair queue `self._fq`; `Connection._recv` (scheduled through
`io_loop.add_callback`) pops a queue from the back of `fq`, pops one message
from the back of that deque, writes the MESSAGE frame, and re-schedules from
`on_send_complete` once the body has been flushed. `fq` stores references to
the deque objects, so we model deques in a heap `store` addressed by numeric
ids. -/

structure ConnState where
  /-- Heap of deque objects: id → contents, left (front) to right (back). -/
  store : Nat → List String
  /-- Next fresh deque id. -/
  next : Nat
  /-- `self._mq`: qid → deque id (`defaultdict(deque)`, looked up pointwise). -/
  mq : String → Option Nat
  /-- `self._fq`: deque of `(qid, deque-ref)`, appended at the back; `fq.pop()`
  pops the back. -/
  fq : List (String × Nat)
  /-- `self._recving`. -/
  recving : Bool
  /-- Number of `_recv` callbacks queued in the event loop via `add_callback`. -/
  cbq : Nat
  /-- In-flight MESSAGE bodies whose `on_send_complete` has not yet run, in
  write (stream FIFO) order: oldest first. -/
  pending : List (String × Nat)
  /-- MESSAGE frames `(qid, body)` in the order they were written to the
  stream. -/
  written : List (String × String)

def ConnState.init : ConnState :=
  { store := fun _ => [], next := 0, mq := fun _ => none, fq := [],
    recving := false, cbq := 0, pending := [], written := [] }

/-- `Connection.on_message(qid, message)`: `q = self._mq[qid]` (materialising
a fresh deque when absent), `q.append(message)`, push `(qid, q)` on `fq` when
the deque just became length 1, and schedule `_recv` when `_recving` is
false. -/
def connOnMessage (qid message : String) (s : ConnState) : ConnState :=
  let (ref, s) :=
    match s.mq qid with
    | some r => (r, s)
    | none =>
        (s.next, { s with store := fun r => if r = s.next then [] else s.store r,
                          mq := fun q => if q = qid then some s.next else s.mq q,
                          next := s.next + 1 })
  let q' := s.store ref ++ [message]
  let s := { s with store := fun r => if r = ref then q' else s.store r }
  let s := if q'.length = 1 then { s with fq := s.fq ++ [(qid, ref)] } else s
  if ¬ s.recving then { s with cbq := s.cbq + 1 } else s

/-- One queued `_recv` callback runs: pop `(qid, q)` from the back of `fq`
(the `assert False` when `fq` is empty is `none`), set `_recving`, pop one
message from the back of the deque (`q.pop()`; `IndexError` on an empty deque
is `none`), write the MESSAGE frame, and leave `on_send_complete` in flight. -/
def connRunRecv (s : ConnState) : Option ConnState :=
  match s.cbq with
  | 0 => none
  | n + 1 =>
      let s := { s with cbq := n }
      match s.fq.getLast? with
      | none => none
      | some (qid, ref) =>
          let s := { s with fq := s.fq.dropLast, recving := true }
          match (s.store ref).getLast? with
          | none => none
          | some x =>
              some { s with store := fun r => if r = ref then (s.store ref).dropLast
                                              else s.store r,
                            written := s.written ++ [(qid, x)],
                            pending := s.pending ++ [(qid, ref)] }

/-- The stream finishes flushing the oldest in-flight body and runs its
`on_send_complete`: re-append `(qid, q)` to `fq` when the deque is non-empty,
else `del self._mq[qid]` (`KeyError` is `none`); then schedule `_recv` when
`fq` is non-empty, else clear `_recving`. -/
def connComplete (s : ConnState) : Option ConnState :=
  match s.pending with
  | [] => none
  | (qid, ref) :: rest =>
      let s := { s with pending := rest }
      let step2 : Option ConnState :=
        if (s.store ref).length > 0 then
          some { s with fq := s.fq ++ [(qid, ref)] }
        else
          match s.mq qid with
          | none => none
          | some _ => some { s with mq := fun q => if q = qid then none else s.mq q }
      match step2 with
      | none => none
      | some s =>
          if s.fq.length > 0 then some { s with cbq := s.cbq + 1 }
          else some { s with recving := false }

/-- Events driving one connection's egress scheduler: a delivery from the
exchange, one queued `_recv` callback running, one body-flush completion. -/
inductive ConnEv where
  | msg (qid message : String)
  | runRecv
  | complete

def connStep (e : ConnEv) (s : ConnState) : Option ConnState :=
  match e with
  | .msg qid message => some (connOnMessage qid message s)
  | .runRecv => connRunRecv s
  | .complete => connComplete s

/-- Run an event trace from a state. Every successful trace from
`ConnState.init` is a reachable interleaving of exchange deliveries,
event-loop callbacks and send completions. -/
def connRun (s : ConnState) : List ConnEv → Option ConnState
  | [] => some s
  | e :: es =>
      match connStep e s with
      | none => none
      | some s' => connRun s' es

/-- The trace refuting per-qid FIFO: two messages delivered to
`on_message("q", ·)` before the first `_recv` callback runs. -/
def c5Trace : List ConnEv :=
  [.msg "q" "m1", .msg "q" "m2", .runRecv, .complete, .runRecv]

/-- C5: egress is not FIFO per qid. `on_message` appends to the right of the
per-qid deque and `_recv` pops with `q.pop()`, also from the right, so the
per-qid queue is a stack. With `m1` then `m2` delivered to
`on_message("q", ·)` before the first `_recv` runs, the MESSAGE frame for
`m2` is written to the stream first: `written = [("q","m2"), ("q","m1")]`,
the reverse of the claimed order. -/
theorem C5_egress_not_fifo :
    ∃ s, connRun ConnState.init c5Trace = some s ∧
      s.written = [("q", "m2"), ("q", "m1")] :=
  ⟨_, rfl, by decide⟩

/-- The trace refuting the fair-queue invariant: a message for `"q"` arrives
while `"q"`'s previous frame is still being written. -/
def c6Trace : List ConnEv :=
  [.msg "q" "m1", .runRecv, .msg "q" "m2", .complete]

/-- C6: the fair-queue invariant fails in a reachable state. After
`on_message("q","m1")` and one `_recv`, the frame for `m1` is in flight and
`mq["q"]` is empty; `on_message("q","m2")` now makes the deque length 1
again, so the qid is appended to `fq` even though it is currently being
written (first conjunct: after the three-event prefix, `"q"` is in `fq`
while its completion is still pending); when `on_send_complete` then runs it
appends `(qid, q)` once more, so `"q"` appears twice in `fq` (second
conjunct), violating "each qid appears in fq at most once". -/
theorem C6_fq_invariant_violated :
    (∃ s, connRun ConnState.init [.msg "q" "m1", .runRecv, .msg "q" "m2"] = some s ∧
      (s.fq.map Prod.fst).count "q" = 1 ∧ (s.pending.map Prod.fst).count "q" = 1) ∧
    (∃ s, connRun ConnState.init c6Trace = some s ∧
      (s.fq.map Prod.fst).count "q" = 2) :=
  ⟨⟨_, rfl, by decide, by decide⟩, ⟨_, rfl, by decide⟩⟩

/-! ## Stream read side (`IOStream.read_bytes` / `IOStream._consume` in
`iostream.py`)

Bytes are naturals; the read buffer is the deque of received chunks. -/

/-- Total buffered bytes (what `_read_buffer_size` tracks). -/
def totalBytes (buf : List (List Nat)) : Nat := (buf.map List.length).sum

/-- The terminal part of `_consume`'s third branch: after the accumulation
loop, split the last collected chunk when the accumulated length overshoots
`loc`, pushing the tail back to the front of the buffer. -/
def consumeFin (loc n : Nat) (acc buf : List (List Nat)) :
    Option (List Nat × List (List Nat)) :=
  if n > loc then
    match acc.getLast? with
    | none => none
    | some x =>
        let i := x.length - (n - loc)
        some ((acc.dropLast ++ [x.take i]).flatten, x.drop i :: buf)
  else some (acc.flatten, buf)

/-- The `while n < loc` accumulation loop of `_consume`: pop chunks until the
accumulated length `n` reaches `loc` (`popleft` on an exhausted buffer
raises). -/
def consumeLoop (loc : Nat) : Nat → List (List Nat) → List (List Nat) →
    Option (List Nat × List (List Nat))
  | n, acc, buf =>
    if n < loc then
      match buf with
      | [] => none
      | x :: rest => consumeLoop loc (n + x.length) (acc ++ [x]) rest
    else consumeFin loc n acc buf

/-- `IOStream._consume(loc)`: pop the first chunk; return its `loc`-byte
prefix (pushing back the suffix), the whole chunk, or accumulate further
chunks. Returns the extracted bytes and the remaining buffer; the caller's
`_read_buffer_size` decrement is by the length of the result. -/
def consume (loc : Nat) (buf : List (List Nat)) :
    Option (List Nat × List (List Nat)) :=
  match buf with
  | [] => none
  | x :: rest =>
      if x.length > loc then some (x.take loc, x.drop loc :: rest)
      else if x.length = loc then some (x, rest)
      else consumeLoop loc x.length [x] rest

/-- Stream state relevant to the read path: the chunk buffer, the tracked
`_read_buffer_size`, whether a read callback is registered, and whether the
socket has been released. -/
structure RState where
  rbuf : List (List Nat)
  rsize : Nat
  reading : Bool
  closed : Bool
deriving DecidableEq

/-- Outcome of `read_bytes`: normal return (with the synchronously delivered
bytes, if any), a user-callback exception propagating out, or an internal
error (`assert`, `IOError`, `popleft` on empty). -/
inductive RBResult where
  | ok (delivered : Option (List Nat)) (s : RState)
  | userRaise (s : RState)
  | internalErr
deriving DecidableEq

/-- `IOStream.read_bytes(num_bytes, callback)`: assert no read is in flight;
when enough bytes are buffered, call the callback directly (NOT through
`_run_callback`) with `_consume(num_bytes)` — an exception from the callback
propagates with the stream still open; otherwise check the stream is open
and register the pending read. `cbRaises` says whether the user completion
raises. -/
def readBytes (n : Nat) (cbRaises : Bool) (s : RState) : RBResult :=
  if s.reading then .internalErr
  else if s.rsize ≥ n then
    match consume n s.rbuf with
    | none => .internalErr
    | some (res, rest) =>
        let s' := { s with rbuf := rest, rsize := s.rsize - res.length }
        if cbRaises then .userRaise s' else .ok (some res) s'
  else if s.closed then .internalErr
  else .ok none { s with reading := true }

/-- `IOStream.close()`: release the socket once (idempotent). -/
def streamClose (s : RState) : RState :=
  if s.closed then s else { s with closed := true }

/-- `IOStream._run_callback`: invoke a user callback; on an uncaught
exception close the stream, then re-raise. The `.error` state is what the
propagating exception leaves behind. -/
def runCallback (cbRaises : Bool) (s : RState) : Except RState RState :=
  if cbRaises then .error (streamClose s) else .ok s

theorem consumeLoop_unfold (loc m : Nat) (a b : List (List Nat)) :
    consumeLoop loc m a b =
      if m < loc then
        match b with
        | [] => none
        | y :: r => consumeLoop loc (m + y.length) (a ++ [y]) r
      else consumeFin loc m a b := by
  rw [consumeLoop.eq_def]

theorem consumeLoop_unfold_cons (loc m : Nat) (a : List (List Nat))
    (y : List Nat) (r : List (List Nat)) :
    consumeLoop loc m a (y :: r) =
      if m < loc then consumeLoop loc (m + y.length) (a ++ [y]) r
      else consumeFin loc m a (y :: r) := by
  rw [consumeLoop.eq_def]

theorem consumeLoop_spec (loc : Nat) :
    ∀ (buf : List (List Nat)) (n : Nat) (acc : List (List Nat)),
    acc ≠ [] → n = acc.flatten.length → n < loc → loc ≤ n + totalBytes buf →
    ∃ res rest, consumeLoop loc n acc buf = some (res, rest) ∧
      res ++ rest.flatten = acc.flatten ++ buf.flatten ∧ res.length = loc := by
  intro buf
  induction buf with
  | nil =>
    intro n acc _ _ hlt hle
    simp [totalBytes] at hle
    omega
  | cons x rest ih =>
    intro n acc hne hn hlt hle
    rw [consumeLoop_unfold_cons, if_pos hlt]
    by_cases h2 : n + x.length < loc
    · obtain ⟨res, rest', heq, hjoin, hlen⟩ :=
        ih (n + x.length) (acc ++ [x]) (by simp)
          (by rw [hn]; simp) h2
          (by
            have : totalBytes (x :: rest) = x.length + totalBytes rest := by
              simp [totalBytes]
            omega)
      refine ⟨res, rest', heq, ?_, hlen⟩
      rw [hjoin]
      simp
    · rw [consumeLoop_unfold, if_neg h2]
      unfold consumeFin
      by_cases h3 : n + x.length > loc
      · rw [if_pos h3, List.getLast?_concat]
        refine ⟨_, _, rfl, ?_, ?_⟩
        · rw [List.dropLast_concat]
          simp only [List.flatten_append, List.flatten_cons, List.flatten_nil,
            List.append_nil]
          rw [List.append_assoc]
          congr 1
          rw [← List.append_assoc, List.take_append_drop]
        · rw [List.dropLast_concat]
          simp only [List.flatten_append, List.flatten_cons, List.flatten_nil,
            List.append_nil, List.length_append, List.length_take]
          rw [← hn]
          omega
      · rw [if_neg h3]
        have h4 : n + x.length = loc := by omega
        refine ⟨_, _, rfl, by simp, ?_⟩
        rw [← h4, hn]
        simp

theorem consume_spec (n : Nat) (buf : List (List Nat)) (h1 : 1 ≤ n)
    (h2 : n ≤ totalBytes buf) :
    ∃ res rest, consume n buf = some (res, rest) ∧
      res ++ rest.flatten = buf.flatten ∧ res.length = n := by
  cases buf with
  | nil =>
    simp [totalBytes] at h2
    omega
  | cons x rest =>
    rw [consume.eq_def]
    simp only
    by_cases hgt : x.length > n
    · rw [if_pos hgt]
      refine ⟨_, _, rfl, ?_, ?_⟩
      · show List.take n x ++ (List.drop n x :: rest).flatten = (x :: rest).flatten
        rw [List.flatten_cons, List.flatten_cons, ← List.append_assoc,
          List.take_append_drop]
      · simp
        omega
    · rw [if_neg hgt]
      by_cases heq : x.length = n
      · rw [if_pos heq]
        exact ⟨_, _, rfl, by simp, heq⟩
      · rw [if_neg heq]
        have hlt : x.length < n := by omega
        obtain ⟨res, rest', hc, hjoin, hlen⟩ :=
          consumeLoop_spec n rest x.length [x] (by simp) (by simp) hlt
            (by
              have : totalBytes (x :: rest) = x.length + totalBytes rest := by
                simp [totalBytes]
              omega)
        refine ⟨res, rest', hc, ?_, hlen⟩
        rw [hjoin]
        simp

/-- C7: with at least `n ≥ 1` bytes buffered (and the tracked
`_read_buffer_size` consistent with the buffer), `read_bytes(n, completion)`
invokes the completion exactly once, synchronously, with exactly the first
`n` bytes of the buffered stream, leaves the remaining bytes in order for
the next read, and decrements `_read_buffer_size` by `n`. -/
theorem C7_read_bytes_synchronous (n : Nat) (s : RState) (h1 : 1 ≤ n)
    (hr : s.reading = false) (hsz : s.rsize = totalBytes s.rbuf)
    (hn : n ≤ s.rsize) :
    ∃ res s', readBytes n false s = .ok (some res) s' ∧
      res = s.rbuf.flatten.take n ∧ s'.rbuf.flatten = s.rbuf.flatten.drop n ∧
      res.length = n ∧ s'.rsize = s.rsize - n ∧
      s'.reading = s.reading ∧ s'.closed = s.closed := by
  obtain ⟨res, rest, hc, hjoin, hlen⟩ := consume_spec n s.rbuf h1 (hsz ▸ hn)
  refine ⟨res, { s with rbuf := rest, rsize := s.rsize - res.length },
    ?_, ?_, ?_, hlen, ?_, rfl, rfl⟩
  · rw [readBytes, if_neg (by rw [hr]; exact Bool.false_ne_true), if_pos hn, hc]
    simp
  · rw [← hjoin, ← hlen]
    simp [List.take_left]
  · show rest.flatten = _
    rw [← hjoin, ← hlen]
    simp [List.drop_left]
  · show s.rsize - res.length = s.rsize - n
    rw [hlen]

/-- Witness for `C7_read_bytes_synchronous`: reading 3 bytes from the
buffered chunks `[1,2]`, `[3,4,5]`. -/
theorem C7_read_bytes_synchronous_witness :
    (1 ≤ 3 ∧ (⟨[[1,2],[3,4,5]], 5, false, false⟩ : RState).reading = false) ∧
    ∃ res s', readBytes 3 false ⟨[[1,2],[3,4,5]], 5, false, false⟩ =
        .ok (some res) s' ∧
      res = ([[1,2],[3,4,5]] : List (List Nat)).flatten.take 3 ∧
      s'.rbuf.flatten = ([[1,2],[3,4,5]] : List (List Nat)).flatten.drop 3 ∧
      res.length = 3 ∧ s'.rsize = 5 - 3 ∧
      s'.reading = false ∧ s'.closed = false :=
  ⟨⟨by decide, rfl⟩,
    C7_read_bytes_synchronous 3 ⟨[[1,2],[3,4,5]], 5, false, false⟩
      (by decide) rfl (by decide) (by decide)⟩

/-- C8 counterexample: a read completion invoked synchronously by
`read_bytes` (enough bytes already buffered) is called directly, not through
`_run_callback`; when it raises, the exception propagates out of
`read_bytes` with the stream still open (`closed = false`): the socket is
NOT released first, contrary to the claim. -/
theorem C8_counterexample :
    ∃ s', readBytes 4 true ⟨[[1, 2, 3, 4]], 4, false, false⟩ = .userRaise s' ∧
      s'.closed = false :=
  ⟨_, rfl, rfl⟩

/-- C8 amended: a user callback that raises and is invoked through
`IOStream._run_callback` (read completions delivered from the read handler,
write completions, the close callback) causes the stream to close — the
socket is released — before the exception propagates; but a read completion
invoked synchronously by `read_bytes` is called directly and its exception
propagates without closing the stream. -/
theorem C8_run_callback_closes_amended (s : RState) :
    ∃ s', runCallback true s = .error s' ∧ s'.closed = true := by
  refine ⟨streamClose s, rfl, ?_⟩
  unfold streamClose
  by_cases h : s.closed
  · rw [if_pos h]; exact h
  · rw [if_neg h]

/-! ## Stream write side (`IOStream._handle_write` in `iostream.py`) -/

/-- Write-path state: the write buffer of `(bytes, optional completion)`
entries (completions identified by numeric ids) and the tracked
`_write_buffer_size`. -/
structure WState where
  wbuf : List (List Nat × Option Nat)
  wsize : Nat
  wclosed : Bool
deriving DecidableEq

/-- Outcome of the `socket.send(x)` attempt inside `_handle_write`. -/
inductive SendOutcome where
  | sent (n : Nat)
  | eagain
  | fail

/-- `IOStream._handle_write`: when the tracked size is non-zero, pop the head
entry and attempt a send. On a partial send push back the unsent suffix with
the same completion; on a full send mark the completion runnable; on
EAGAIN/EWOULDBLOCK fall through (the popped entry is NOT restored and
`_write_buffer_size` is NOT adjusted); on any other error close. Returns the
new state and the completion to run, `none` when `popleft` raises on an
empty deque. -/
def handleWrite (o : SendOutcome) (s : WState) : Option (WState × Option Nat) :=
  if s.wsize ≠ 0 then
    match s.wbuf with
    | [] => none
    | (x, cb) :: rest =>
        match o with
        | .sent n =>
            if n < x.length then
              some ({ s with wbuf := (x.drop n, cb) :: rest, wsize := s.wsize - n },
                none)
            else
              some ({ s with wbuf := rest, wsize := s.wsize - n }, cb)
        | .eagain => some ({ s with wbuf := rest }, none)
        | .fail => some ({ s with wbuf := rest, wclosed := true }, none)
  else some (s, none)

/-- C9: on EAGAIN/EWOULDBLOCK the write is not a silent retry. With the
write buffer holding the single entry `([1,2,3], completion 0)` and
`_write_buffer_size = 3`, a send attempt that raises EAGAIN leaves the
buffer EMPTY — the entry was popped before `send` raised and is never pushed
back — while `_write_buffer_size` still reads 3: the queued bytes and their
completion are lost, contradicting the claim that buffer contents,
completions and size are all unchanged. -/
theorem C9_eagain_drops_entry :
    handleWrite .eagain ⟨[([1, 2, 3], some 0)], 3, false⟩ =
      some (⟨[], 3, false⟩, none) ∧ (⟨[], 3, false⟩ : WState).wbuf = [] :=
  ⟨rfl, rfl⟩

/-! ## Base client (`Client` in `jetstream.py`) -/

/-- Base `Client` state: its identity and the `connected` flag. -/
structure ClState where
  cid : Nat
  connected : Bool

/-- `Client.subscribe(qid)`: `if self.connected: self._exchange.subscribe(qid, self)`. -/
def clientSubscribe (k : Key) (cl : ClState) (ex : ExState) :
    Option (ClState × ExState) :=
  if cl.connected then (exSubscribe k cl.cid ex).map (fun ex' => (cl, ex'))
  else some (cl, ex)

/-- `Client.unsubscribe(qid)`: guarded by `self.connected` likewise. -/
def clientUnsubscribe (k : Key) (cl : ClState) (ex : ExState) :
    Option (ClState × ExState) :=
  if cl.connected then (exUnsubscribe k cl.cid ex).map (fun ex' => (cl, ex'))
  else some (cl, ex)

/-- `Client.send(qid, message, multicast)`: guarded by `self.connected`;
returns the `on_message` invocations performed by the dispatch ( `[]` when
not connected). -/
def clientSend (μ : Nat → String → Bool) (r : Nat) (qid message : String)
    (multicast : Bool) (cl : ClState) (ex : ExState) :
    Option (ClState × ExState × List (Nat × String × String)) :=
  if cl.connected then
    (exDispatch μ r ex qid message multicast).map (fun ds => (cl, ex, ds))
  else some (cl, ex, [])

/-- C10: on a base `Client` whose `connected` flag is false, `subscribe`,
`unsubscribe` and `send` all return normally without raising, perform no
exchange operation and no delivery, and leave the subscription table (and
the client) unchanged. -/
theorem C10_disconnected_client_noop (i : Nat) (k : Key) (ex : ExState)
    (μ : Nat → String → Bool) (r : Nat) (qid message : String)
    (multicast : Bool) :
    clientSubscribe k ⟨i, false⟩ ex = some (⟨i, false⟩, ex) ∧
    clientUnsubscribe k ⟨i, false⟩ ex = some (⟨i, false⟩, ex) ∧
    clientSend μ r qid message multicast ⟨i, false⟩ ex =
      some (⟨i, false⟩, ex, []) :=
  ⟨rfl, rfl, rfl⟩
